import Mathlib

/-!
Verification of the legal-document-management backend.

Strings are modelled as `List Char`.  The document chunker is the
`RecursiveCharacterTextSplitter` the backend constructs with
`chunk_size=1000`, `chunk_overlap=200`, `length_function=len` and
`separators=["\x5cn\x5cn", "\x5cn", ". ", "! ", "? ", " ", ""]`
(`document_processor.py`).  The splitter itself is library code; the
definitions below embed its algorithm (keep_separator=True at the start of
the following fragment, strip_whitespace=True, merge with separator ""),
character for character, operating on `List Char`.
-/

/-- Python `str.isspace`-style whitespace test used by `str.strip()`
(restricted to the ASCII whitespace characters; the repository's
separators only involve space and newline). -/
def pyWhitespaceChar (c : Char) : Bool :=
  c = ' ' || c = '\t' || c = '\n' || c = '\r' || c = '\x0b' || c = '\x0c'

/-- Python `str.strip()`: remove leading and trailing whitespace. -/
def pyStrip (l : List Char) : List Char :=
  ((l.dropWhile pyWhitespaceChar).reverse.dropWhile pyWhitespaceChar).reverse

/-- Python `sep in text` for a (literal, regex-escaped) separator:
substring containment. -/
def occursIn (sep : List Char) : List Char → Bool
  | [] => sep.isEmpty
  | c :: cs => sep.isPrefixOf (c :: cs) || occursIn sep cs

/-- The separator-selection loop at the top of
`RecursiveCharacterTextSplitter._split_text`: the chosen separator is the
first one that is `""` or occurs in the text (with the remaining
separators as `new_separators`); if none matches, the last separator with
no `new_separators`. -/
def pickSep : List (List Char) → List Char → List Char × List (List Char)
  | [], _ => ([], [])
  | s :: rest, text =>
    if s = [] then ([], [])
    else if occursIn s text then (s, rest)
    else if rest = [] then (s, [])
    else pickSep rest text

/-- `re.split` on a literal separator: the maximal separator-free segments
of `text`, scanning left to right.  `acc` is the (reversed) segment
currently being accumulated.  The scan consumes at least one character per
step, so `fuel` is initialised to the text length and the `fuel = 0` case
is unreachable. -/
def splitOnAux (sep : List Char) : Nat → List Char → List Char → List (List Char)
  | 0, acc, rest => [acc.reverse ++ rest]
  | _ + 1, acc, [] => [acc.reverse]
  | fuel + 1, acc, c :: cs =>
    if sep ≠ [] ∧ sep.isPrefixOf (c :: cs) then
      acc.reverse :: splitOnAux sep fuel [] (List.drop (sep.length - 1) cs)
    else
      splitOnAux sep fuel (c :: acc) cs

/-- `_split_text_with_regex(text, sep, keep_separator=True)`: split on the
separator, re-attach each separator occurrence to the front of the
following segment, and drop empty fragments.  An empty separator splits
into single characters. -/
def splitTextWithSep (sep text : List Char) : List (List Char) :=
  let splits :=
    if sep = [] then text.map (fun c => [c])
    else
      match splitOnAux sep text.length [] text with
      | [] => []
      | p :: ps => p :: ps.map (fun q => sep ++ q)
  splits.filter (fun s => decide (s ≠ []))

/-- `TextSplitter._join_docs`: join with the separator, strip whitespace
(strip_whitespace=True), and drop the fragment if it became empty. -/
def joinDocs (sep : List Char) (docs : List (List Char)) : Option (List Char) :=
  let text := pyStrip (List.intercalate sep docs)
  if text = [] then none else some text

/-- The inner `while` pop loop of `TextSplitter._merge_splits`: shrink the
running window from the front while the running total exceeds the overlap,
or while adding the next split would still overflow the chunk size.  (In
the Python loop the current document list is provably non-empty whenever
the condition holds, so exiting on `[]` is equivalent.) -/
def popWhile (chunkSize overlap sepLen dLen : Nat) :
    List (List Char) → Nat → List (List Char) × Nat
  | [], total => ([], total)
  | d :: rest, total =>
    if total > overlap ∨ (total + dLen + sepLen > chunkSize ∧ total > 0) then
      popWhile chunkSize overlap sepLen dLen rest
        (total - (d.length + if rest = [] then 0 else sepLen))
    else (d :: rest, total)

/-- The body of `TextSplitter._merge_splits`: fold the splits into
overlapping chunks of at most `chunkSize` characters (window emission on
overflow, then popping down to the overlap). -/
def mergeLoop (chunkSize overlap : Nat) (sep : List Char) :
    List (List Char) → List (List Char) → Nat → List (List Char) → List (List Char)
  | docs, current, _, [] => docs ++ (joinDocs sep current).toList
  | docs, current, total, d :: ds =>
    let dLen := d.length
    let st :=
      if total + dLen + (if current = [] then 0 else sep.length) > chunkSize then
        if current = [] then (docs, current, total)
        else
          (docs ++ (joinDocs sep current).toList,
           (popWhile chunkSize overlap sep.length dLen current total).1,
           (popWhile chunkSize overlap sep.length dLen current total).2)
      else (docs, current, total)
    mergeLoop chunkSize overlap sep st.1 (st.2.1 ++ [d])
      (st.2.2 + dLen + (if (st.2.1 ++ [d]).length > 1 then sep.length else 0)) ds

/-- `TextSplitter._merge_splits(splits, separator)`. -/
def mergeSplits (chunkSize overlap : Nat) (sep : List Char)
    (splits : List (List Char)) : List (List Char) :=
  mergeLoop chunkSize overlap sep [] [] 0 splits

/-- The accumulation loop of `RecursiveCharacterTextSplitter._split_text`:
splits shorter than the chunk size are collected and merged; oversized
splits flush the collected ones and are handled by `handleBig` (recursive
splitting when `new_separators` remain, otherwise emitted as-is).  Since
keep_separator=True the merge separator is `""`. -/
def processSplits (chunkSize overlap : Nat) (handleBig : List Char → List (List Char)) :
    List (List Char) → List (List Char) → List (List Char) → List (List Char)
  | finalChunks, goodSplits, [] =>
    if goodSplits = [] then finalChunks
    else finalChunks ++ mergeSplits chunkSize overlap [] goodSplits
  | finalChunks, goodSplits, s :: rest =>
    if s.length < chunkSize then
      processSplits chunkSize overlap handleBig finalChunks (goodSplits ++ [s]) rest
    else
      processSplits chunkSize overlap handleBig
        ((if goodSplits = [] then finalChunks
          else finalChunks ++ mergeSplits chunkSize overlap [] goodSplits) ++ handleBig s)
        [] rest

/-- `RecursiveCharacterTextSplitter._split_text(text, separators)`.  The
recursion is driven by the strictly shrinking separator list; `fuel` is
its length (the `fuel = 0` fallback is unreachable because a recursive
call only happens when `new_separators` is non-empty, and that list is
strictly shorter than the current one). -/
def splitTextRec (chunkSize overlap : Nat) : Nat → List Char → List (List Char) → List (List Char)
  | 0, text, _ => [text]
  | fuel + 1, text, seps =>
    processSplits chunkSize overlap
      (fun s =>
        if (pickSep seps text).2 = [] then [s]
        else splitTextRec chunkSize overlap fuel s (pickSep seps text).2)
      [] [] (splitTextWithSep (pickSep seps text).1 text)

/-- The separator priority list configured in `DocumentProcessor.__init__`. -/
def separators : List (List Char) :=
  [['\n', '\n'], ['\n'], ['.', ' '], ['!', ' '], ['?', ' '], [' '], []]

/-- `split_text` of the configured chunker: chunk size 1000, overlap 200. -/
def splitText (text : List Char) : List (List Char) :=
  splitTextRec 1000 200 separators.length text separators

/-- Overlap-trimming concatenation used by the reconstruction property:
keep the first fragment whole and drop the 200-character overlap from the
front of every later fragment. -/
def gTrim (l : List (List Char)) : List Char :=
  (l.map (fun f => f.drop 200)).flatten

/-- Concatenation of the fragments, minus overlap (the claim's
reconstruction operator). -/
def reconstruct : List (List Char) → List Char
  | [] => []
  | c :: cs => c ++ gTrim cs

/-! ### Characterisation of the chunker on whitespace-free text

On text containing no whitespace character none of the non-empty
separators can occur (each contains a space or a newline), so the splitter
degrades to character splitting followed by the merge loop, which produces
sliding windows of 1000 characters advancing by 800 (overlap 200). -/

/-- The sliding windows the merge loop produces on whitespace-free text. -/
def chunksWF (text : List Char) : List (List Char) :=
  if text = [] then []
  else if _h : text.length ≤ 1000 then [text]
  else text.take 1000 :: chunksWF (text.drop 800)
termination_by text.length
decreasing_by
  simp only [List.length_drop]
  omega

lemma dropWhile_eq_self_of_all_false {p : Char → Bool} {l : List Char}
    (h : ∀ x ∈ l, p x = false) : l.dropWhile p = l := by
  cases l with
  | nil => rfl
  | cons c cs =>
    rw [List.dropWhile_cons]
    simp [h c (List.mem_cons_self c cs)]

lemma pyStrip_eq_self {t : List Char} (h : ∀ x ∈ t, pyWhitespaceChar x = false) :
    pyStrip t = t := by
  unfold pyStrip
  rw [dropWhile_eq_self_of_all_false h,
    dropWhile_eq_self_of_all_false (fun x hx => h x (List.mem_reverse.mp hx)),
    List.reverse_reverse]

lemma intercalate_nil (xs : List (List Char)) : List.intercalate [] xs = xs.flatten := by
  induction xs with
  | nil => rfl
  | cons a t ih =>
    cases t with
    | nil => simp [List.intercalate]
    | cons b t2 =>
      simp only [List.intercalate, List.intersperse_cons₂, List.flatten_cons,
        List.nil_append] at ih ⊢
      rw [ih]

lemma flatten_map_singleton (w : List Char) :
    (w.map (fun c => [c])).flatten = w := by
  induction w with
  | nil => rfl
  | cons c cs ih => simp [ih]

lemma joinDocs_singletons {w : List Char}
    (hw : ∀ x ∈ w, pyWhitespaceChar x = false) :
    joinDocs [] (w.map (fun c => [c])) = if w = [] then none else some w := by
  unfold joinDocs
  rw [intercalate_nil, flatten_map_singleton, pyStrip_eq_self hw]

lemma mem_of_occursIn {sep t : List Char} (h : occursIn sep t = true) :
    ∀ x ∈ sep, x ∈ t := by
  induction t with
  | nil =>
    intro x hx
    simp [occursIn, List.isEmpty_iff] at h
    simp [h] at hx
  | cons c cs ih =>
    intro x hx
    simp only [occursIn, Bool.or_eq_true] at h
    rcases h with h | h
    · exact (List.isPrefixOf_iff_prefix.mp h).subset hx
    · exact List.mem_cons_of_mem c (ih h x hx)

lemma occursIn_eq_false (c : Char) {sep t : List Char} (hc : c ∈ sep)
    (hcw : pyWhitespaceChar c = true)
    (ht : ∀ x ∈ t, pyWhitespaceChar x = false) : occursIn sep t = false := by
  cases hh : occursIn sep t
  · rfl
  · have := ht c (mem_of_occursIn hh c hc)
    rw [hcw] at this
    simp at this

lemma pickSep_noWS {t : List Char} (ht : ∀ x ∈ t, pyWhitespaceChar x = false) :
    pickSep separators t = ([], []) := by
  have h1 : occursIn ['\n', '\n'] t = false :=
    occursIn_eq_false '\n' (List.mem_cons_self _ _) (by decide) ht
  have h2 : occursIn ['\n'] t = false :=
    occursIn_eq_false '\n' (List.mem_cons_self _ _) (by decide) ht
  have h3 : occursIn ['.', ' '] t = false :=
    occursIn_eq_false ' ' (by simp) (by decide) ht
  have h4 : occursIn ['!', ' '] t = false :=
    occursIn_eq_false ' ' (by simp) (by decide) ht
  have h5 : occursIn ['?', ' '] t = false :=
    occursIn_eq_false ' ' (by simp) (by decide) ht
  have h6 : occursIn [' '] t = false :=
    occursIn_eq_false ' ' (List.mem_cons_self _ _) (by decide) ht
  simp [separators, pickSep, h1, h2, h3, h4, h5, h6]

lemma splitTextWithSep_nil (t : List Char) :
    splitTextWithSep [] t = t.map (fun c => [c]) := by
  have h : splitTextWithSep [] t =
      (t.map (fun c => [c])).filter (fun s => decide (s ≠ [])) := by
    simp [splitTextWithSep]
  rw [h, List.filter_eq_self]
  intro a ha
  rcases List.mem_map.mp ha with ⟨c, _, rfl⟩
  simp


lemma popWhile_singletons : ∀ (v : List Char), 200 ≤ v.length →
    popWhile 1000 200 0 1 (v.map (fun c => [c])) v.length =
      ((v.drop (v.length - 200)).map (fun c => [c]), 200) := by
  intro v
  induction v with
  | nil => intro h; simp at h
  | cons c v ih =>
    intro h
    simp only [List.length_cons] at h
    simp only [List.map_cons, List.length_cons]
    rw [popWhile]
    split
    · rename_i hcond
      have hv : 200 ≤ v.length := by omega
      simp only [List.length_cons, List.length_nil, ite_self, Nat.add_sub_cancel]
      rw [ih hv]
      have h1 : v.length + 1 - 200 = (v.length - 200) + 1 := by omega
      rw [h1, List.drop_succ_cons]
    · rename_i hcond
      have h200 : v.length + 1 = 200 := by omega
      have h0 : v.length + 1 - 200 = 0 := by omega
      rw [h0, List.drop_zero, h200, List.map_cons]

lemma chunksWF_nil : chunksWF [] = [] := by
  rw [chunksWF]
  simp

lemma chunksWF_short {w : List Char} (h0 : w ≠ []) (hle : w.length ≤ 1000) :
    chunksWF w = [w] := by
  rw [chunksWF]
  simp [h0, hle]

lemma chunksWF_long {w : List Char} (hgt : 1000 < w.length) :
    chunksWF w = w.take 1000 :: chunksWF (w.drop 800) := by
  have h0 : w ≠ [] := by
    intro h
    subst h
    simp at hgt
  rw [chunksWF]
  simp [h0]
  omega

lemma mergeLoop_singletons (cs : List Char) : ∀ (w : List Char) (docs : List (List Char)),
    w.length ≤ 1000 →
    (∀ x ∈ w, pyWhitespaceChar x = false) →
    (∀ x ∈ cs, pyWhitespaceChar x = false) →
    mergeLoop 1000 200 [] docs (w.map (fun c => [c])) w.length (cs.map (fun c => [c])) =
      docs ++ chunksWF (w ++ cs) := by
  induction cs with
  | nil =>
    intro w docs hle hw _
    simp only [List.map_nil]
    rw [mergeLoop, joinDocs_singletons hw]
    by_cases hw0 : w = []
    · subst hw0
      simp [chunksWF_nil]
    · rw [if_neg hw0, List.append_nil, chunksWF_short hw0 hle]
      rfl
  | cons c cs ih =>
    intro w docs hle hw hcs
    have hc : pyWhitespaceChar c = false := hcs c (List.mem_cons_self _ _)
    have hcs' : ∀ x ∈ cs, pyWhitespaceChar x = false :=
      fun x hx => hcs x (List.mem_cons_of_mem _ hx)
    simp only [List.map_cons]
    rw [mergeLoop]
    simp only [List.length_nil, List.length_cons, Nat.zero_add, ite_self, Nat.add_zero]
    by_cases hfull : w.length = 1000
    · -- window full: emit it and pop back to the 200-character overlap
      have hw0 : w ≠ [] := by
        intro h
        subst h
        simp at hfull
      have hcur : w.map (fun c => [c]) ≠ [] := by
        simp [hw0]
      rw [if_pos (show w.length + 1 > 1000 by omega), if_neg hcur]
      rw [joinDocs_singletons hw, if_neg hw0]
      rw [popWhile_singletons w (by omega)]
      dsimp only
      have hdrop : w.length - 200 = 800 := by omega
      rw [hdrop]
      have hnw : ∀ x ∈ (w.drop 800) ++ [c], pyWhitespaceChar x = false := by
        intro x hx
        rcases List.mem_append.mp hx with hx | hx
        · exact hw x (List.mem_of_mem_drop hx)
        · simp at hx
          subst hx
          exact hc
      have happ := ih ((w.drop 800) ++ [c]) (docs ++ [w])
        (by simp [List.length_drop]; omega) hnw hcs'
      simp only [List.map_append, List.map_cons, List.map_nil, List.length_append,
        List.length_drop, List.length_cons, List.length_nil, Nat.zero_add, hfull,
        List.map_drop] at happ
      rw [show (1000 : Nat) - 800 + 1 = 200 + 1 by norm_num] at happ
      simp only [Option.toList_some, List.map_drop]
      rw [happ]
      have hlen2 : 1000 < (w ++ c :: cs).length := by
        rw [List.length_append, List.length_cons]
        omega
      have h1 : (w ++ c :: cs).take 1000 = w := by
        rw [List.take_append_of_le_length (by omega), List.take_of_length_le (by omega)]
      have h2 : (w ++ c :: cs).drop 800 = (w.drop 800) ++ (c :: cs) :=
        List.drop_append_of_le_length (by omega)
      rw [chunksWF_long hlen2, h1, h2]
      simp
    · -- room left: append the next character to the running window
      have hlt : w.length < 1000 := by omega
      rw [if_neg (show ¬ (w.length + 1 > 1000) by omega)]
      dsimp only
      have hnw : ∀ x ∈ w ++ [c], pyWhitespaceChar x = false := by
        intro x hx
        rcases List.mem_append.mp hx with hx | hx
        · exact hw x hx
        · simp at hx
          subst hx
          exact hc
      have happ := ih (w ++ [c]) docs (by simp; omega) hnw hcs'
      simp only [List.map_append, List.map_cons, List.map_nil, List.length_append,
        List.length_cons, List.length_nil, Nat.zero_add] at happ
      rw [happ]
      simp

lemma processSplits_allSmall (hb : List Char → List (List Char)) :
    ∀ (splits finalChunks good : List (List Char)),
    (∀ s ∈ splits, s.length < 1000) →
    processSplits 1000 200 hb finalChunks good splits =
      if good ++ splits = [] then finalChunks
      else finalChunks ++ mergeSplits 1000 200 [] (good ++ splits) := by
  intro splits
  induction splits with
  | nil =>
    intro finalChunks good _
    rw [processSplits]
    simp
  | cons s rest ih =>
    intro finalChunks good hsmall
    rw [processSplits, if_pos (hsmall s (List.mem_cons_self _ _))]
    rw [ih finalChunks (good ++ [s]) (fun x hx => hsmall x (List.mem_cons_of_mem _ hx))]
    have h1 : (good ++ [s]) ++ rest = good ++ (s :: rest) := by simp
    rw [h1]

lemma splitText_noWS {t : List Char} (ht : ∀ x ∈ t, pyWhitespaceChar x = false) :
    splitText t = chunksWF t := by
  show splitTextRec 1000 200 (6 + 1) t separators = chunksWF t
  rw [splitTextRec, pickSep_noWS ht]
  dsimp only
  rw [splitTextWithSep_nil]
  rw [processSplits_allSmall _ _ _ _ ?hsmall]
  case hsmall =>
    intro s hs
    rcases List.mem_map.mp hs with ⟨c, _, rfl⟩
    simp
  simp only [List.nil_append]
  by_cases h0 : t = []
  · subst h0
    simp [chunksWF_nil]
  · rw [if_neg (by simpa using h0)]
    unfold mergeSplits
    have h := mergeLoop_singletons t [] [] (by simp) (by intro x hx; cases hx) ht
    simpa using h

lemma gTrim_cons (a : List Char) (l : List (List Char)) :
    gTrim (a :: l) = a.drop 200 ++ gTrim l := by
  simp [gTrim]

lemma take_g : ∀ (n : Nat) (t : List Char), t.length ≤ n →
    t.take 1000 ++ gTrim (chunksWF (t.drop 800)) = t := by
  intro n
  induction n with
  | zero =>
    intro t ht
    have h0 : t = [] := List.eq_nil_of_length_eq_zero (by omega)
    subst h0
    simp [chunksWF_nil, gTrim]
  | succ n ih =>
    intro t ht
    by_cases h800 : t.length ≤ 800
    · rw [List.drop_eq_nil_of_le h800, chunksWF_nil]
      simp [gTrim, List.take_of_length_le (by omega : t.length ≤ 1000)]
    · by_cases h1800 : t.length ≤ 1800
      · have hne : t.drop 800 ≠ [] := by
          intro h
          rw [List.drop_eq_nil_iff] at h
          omega
        have hlen : (t.drop 800).length ≤ 1000 := by
          rw [List.length_drop]
          omega
        rw [chunksWF_short hne hlen, gTrim_cons]
        simp only [gTrim, List.map_nil, List.flatten_nil, List.append_nil]
        rw [List.drop_drop]
        exact List.take_append_drop 1000 t
      · have hne : t.drop 800 ≠ [] := by
          intro h
          rw [List.drop_eq_nil_iff] at h
          omega
        have hgt : 1000 < (t.drop 800).length := by
          rw [List.length_drop]
          omega
        rw [chunksWF_long hgt, gTrim_cons]
        have key := ih (t.drop 800) (by rw [List.length_drop]; omega)
        have hG : gTrim (chunksWF ((t.drop 800).drop 800)) =
            (t.drop 800).drop 1000 := by
          have hA : ((t.drop 800).take 1000).length = 1000 := by
            rw [List.length_take, List.length_drop]
            omega
          calc gTrim (chunksWF ((t.drop 800).drop 800))
              = ((t.drop 800).take 1000 ++
                  gTrim (chunksWF ((t.drop 800).drop 800))).drop
                  ((t.drop 800).take 1000).length := by
                rw [List.drop_left]
            _ = (t.drop 800).drop 1000 := by rw [key, hA]
        rw [hG]
        rw [List.drop_take, List.drop_drop, List.drop_drop]
        have h1 : (800 : Nat) + 200 = 1000 := by norm_num
        have h2 : (800 : Nat) + 1000 = 1800 := by norm_num
        have h3 : (1000 : Nat) - 200 = 800 := by norm_num
        rw [h1, h2, h3]
        rw [← List.append_assoc]
        rw [← List.take_add]
        rw [show (1000 : Nat) + 800 = 1800 by norm_num]
        exact List.take_append_drop 1800 t

lemma reconstruct_chunksWF (t : List Char) : reconstruct (chunksWF t) = t := by
  by_cases h0 : t = []
  · subst h0
    rw [chunksWF_nil]
    rfl
  · by_cases h1 : t.length ≤ 1000
    · rw [chunksWF_short h0 h1]
      simp [reconstruct, gTrim]
    · rw [chunksWF_long (by omega)]
      show t.take 1000 ++ gTrim (chunksWF (t.drop 800)) = t
      exact take_g t.length t le_rfl

/-- C1 (counterexample): the chunker's `_join_docs` strips whitespace from
every emitted fragment (`strip_whitespace=True`), so the input `" a"` is
chunked as `["a"]` and the leading space cannot be recovered: the
overlap-trimmed concatenation of the fragments is not the original
text. -/
theorem c1_reconstruct_counterexample :
    splitText (" a".toList) = [['a']] ∧
    reconstruct (splitText (" a".toList)) ≠ " a".toList := by
  constructor
  · decide
  · decide

/-- C1 (amended): for every input text containing no whitespace character,
the ordered fragments produced by the chunker (chunk size 1000, overlap
200), trimmed of their 200-character overlaps and concatenated,
reconstruct the original text exactly; no character of such an input is
dropped.  (On general inputs the splitter strips whitespace at fragment
boundaries, so reconstruction can lose whitespace characters.) -/
theorem c1_chunker_reconstructs_noWS (t : List Char)
    (ht : ∀ x ∈ t, pyWhitespaceChar x = false) :
    reconstruct (splitText t) = t := by
  rw [splitText_noWS ht]
  exact reconstruct_chunksWF t

/-- Witness for `c1_chunker_reconstructs_noWS` at the concrete input
`"ab"`. -/
theorem c1_chunker_reconstructs_noWS_witness :
    (∀ x ∈ "ab".toList, pyWhitespaceChar x = false) ∧
    reconstruct (splitText ("ab".toList)) = "ab".toList :=
  ⟨by decide, c1_chunker_reconstructs_noWS ("ab".toList) (by decide)⟩

/-!
### Vector store and retrieval engine (`vector_store.py`, `routes/chat.py`)

ChromaDB metadata scalars may be stored as native numbers or as strings,
which is exactly the heterogeneity the retrieval code works around; a
metadata value is modelled by `MVal`.  Index entries carry the chunk
metadata written by `DocumentProcessor._create_chunks` (`document_id`,
`company_id`, `filename`); relevance scores are rationals. -/

/-- A ChromaDB metadata scalar: a native integer or a string. -/
inductive MVal where
  | int (n : Int)
  | str (s : List Char)
deriving DecidableEq

/-- Python `str(...)` of a metadata scalar. -/
def pyStr : MVal → List Char
  | .int n => (toString n).toList
  | .str s => s

/-- Python `str(...)` of an integer id. -/
def intStr (n : Int) : List Char := (toString n).toList

/-- An entry of the `legal_documents` Chroma collection: caller-chosen id,
chunk text, and the metadata written at indexing time. -/
structure Entry where
  id : List Char
  content : List Char
  docId : MVal
  companyId : MVal
  filename : List Char
deriving DecidableEq

/-- A retrieved passage as assembled by `similarity_search` /
the chat fallback: content, metadata, score, source chunk id. -/
structure Passage where
  content : List Char
  docId : MVal
  companyId : MVal
  filename : List Char
  score : Rat
  id : List Char
deriving DecidableEq

/-- A raw row of a Chroma `query` result set: entry data plus the raw
distance. -/
structure RawItem where
  id : List Char
  content : List Char
  docId : MVal
  companyId : MVal
  filename : List Char
  distance : Rat
deriving DecidableEq

/-- Chroma `collection.get(where={"document_id": v})`: equality filtering
with exact type matching on the stored metadata scalar. -/
def chromaGetByDocId (store : List Entry) (v : MVal) : List Entry :=
  store.filter (fun e => decide (e.docId = v))

/-- `VectorStore.get_document_chunks`: query with the integer-typed filter
first; if that yields no documents, retry with the stringified id. -/
def getDocumentChunks (store : List Entry) (d : Int) : List Entry :=
  let r := chromaGetByDocId store (MVal.int d)
  if r = [] then chromaGetByDocId store (MVal.str (intStr d)) else r

/-- `VectorStore.delete_document`: fetch the entries matching the
integer-typed filter only, then delete that id list (no string-typed
retry). -/
def deleteDocument (store : List Entry) (d : Int) : List Entry :=
  let results := chromaGetByDocId store (MVal.int d)
  if results = [] then store
  else store.filter (fun e => decide (e.id ∉ results.map (fun x => x.id)))

/-- The fallback passage shape built in `chat_with_documents`: same fields
as a search result, with the forced score 1.0. -/
def toFallbackPassage (e : Entry) : Passage :=
  ⟨e.content, e.docId, e.companyId, e.filename, 1, e.id⟩

/-- The fallback loop of `chat_with_documents` (lines 67-83): for each
requested document id in order, append its chunks up to the remaining
capacity of the 6-passage cap, stopping once the cap is reached. -/
def fallbackLoop (store : List Entry) : List Int → List Passage → List Passage
  | [], agg => agg
  | d :: ds, agg =>
    let agg2 := agg ++ ((getDocumentChunks store d).take (6 - agg.length)).map toFallbackPassage
    if 6 ≤ agg2.length then agg2 else fallbackLoop store ds agg2

/-- Context selection in `chat_with_documents`: the semantic search
results, unless they are empty and specific documents were requested, in
which case the direct chunk-listing fallback.  (`specific_documents` absent
or empty are both falsy in the Python test.) -/
def chatContext (searchResults : List Passage) (specificDocuments : List Int)
    (store : List Entry) : List Passage :=
  if searchResults = [] ∧ specificDocuments ≠ [] then fallbackLoop store specificDocuments []
  else searchResults

/-- The post-query filter predicate of `VectorStore.similarity_search`
(lines 119-127): stringified equality on `company_id` and stringified
membership of `document_id` in the requested id set, each enforced only
when the corresponding restriction was requested. -/
def passesPostFilter (companyId : Option Int) (documentIds : List Int)
    (docMeta compMeta : MVal) : Bool :=
  (match companyId with
   | some c => decide (pyStr compMeta = intStr c)
   | none => true) &&
  (if documentIds = [] then true
   else decide (pyStr docMeta ∈ documentIds.map intStr))

/-- A ranked passage built from a raw query row: `score = 1 - distance`. -/
def toRankedPassage (it : RawItem) : Passage :=
  ⟨it.content, it.docId, it.companyId, it.filename, 1 - it.distance, it.id⟩

/-- The merge-and-format loop of `VectorStore.similarity_search`
(lines 103-128): iterate over the concatenated result sets, skip ids
already seen, mark every processed id as seen (before the post-filter),
and keep the items passing the post-query filter. -/
def mergeResults (companyId : Option Int) (documentIds : List Int) :
    List RawItem → List (List Char) → List Passage → List Passage
  | [], _, acc => acc
  | it :: rest, seen, acc =>
    if it.id ∈ seen then mergeResults companyId documentIds rest seen acc
    else
      if passesPostFilter companyId documentIds it.docId it.companyId then
        mergeResults companyId documentIds rest (it.id :: seen) (acc ++ [toRankedPassage it])
      else
        mergeResults companyId documentIds rest (it.id :: seen) acc

/-- `similarity_search` applied to the collected query result sets (the
int-typed query, the string-typed query, and/or the unfiltered
fallback). -/
def similaritySearchMerge (companyId : Option Int) (documentIds : List Int)
    (querySets : List (List RawItem)) : List Passage :=
  mergeResults companyId documentIds querySets.flatten [] []

lemma fallbackLoop_eq (store : List Entry) : ∀ (ids : List Int) (agg : List Passage),
    agg.length ≤ 6 →
    fallbackLoop store ids agg =
      agg ++ (((ids.map (getDocumentChunks store)).flatten).take (6 - agg.length)).map
        toFallbackPassage := by
  intro ids
  induction ids with
  | nil =>
    intro agg _
    simp [fallbackLoop]
  | cons d ds ih =>
    intro agg hle
    rw [fallbackLoop]
    simp only [List.map_cons, List.flatten_cons]
    by_cases hfull :
        6 ≤ (agg ++ ((getDocumentChunks store d).take (6 - agg.length)).map toFallbackPassage).length
    · rw [if_pos hfull]
      simp only [List.length_append, List.length_map, List.length_take] at hfull
      have hcap : 6 - agg.length ≤ (getDocumentChunks store d).length := by omega
      rw [List.take_append_eq_append_take]
      have h0 : 6 - agg.length - (getDocumentChunks store d).length = 0 := by omega
      rw [h0, List.take_zero, List.append_nil]
    · rw [if_neg hfull]
      simp only [List.length_append, List.length_map, List.length_take] at hfull
      have hchunks : (getDocumentChunks store d).length < 6 - agg.length := by omega
      have htake : (getDocumentChunks store d).take (6 - agg.length) =
          getDocumentChunks store d := List.take_of_length_le (by omega)
      rw [htake]
      rw [ih (agg ++ (getDocumentChunks store d).map toFallbackPassage)
        (by simp only [List.length_append, List.length_map]; omega)]
      rw [List.take_append_eq_append_take]
      have harith : 6 - agg.length - (getDocumentChunks store d).length =
          6 - (agg ++ (getDocumentChunks store d).map toFallbackPassage).length := by
        simp only [List.length_append, List.length_map]
        omega
      rw [List.take_of_length_le (by omega : (getDocumentChunks store d).length ≤ 6 - agg.length)]
      rw [harith]
      simp [List.map_append]

/-- C2: for a chat request with a non-empty `specific_documents` list whose
semantic search returned nothing, the generation context is built by the
direct chunk-listing fallback: at most 6 passages, every one with score
exactly 1.0, equal to the first six chunks of the requested documents'
chunk lists concatenated in requested-id order (so the cap can cut a
document's chunk list mid-document). -/
theorem c2_fallback_direct_listing (store : List Entry) (ids : List Int)
    (searchResults : List Passage)
    (hempty : searchResults = []) (hids : ids ≠ []) :
    (chatContext searchResults ids store).length ≤ 6 ∧
    (∀ p ∈ chatContext searchResults ids store, p.score = 1) ∧
    chatContext searchResults ids store =
      (((ids.map (getDocumentChunks store)).flatten).take 6).map toFallbackPassage := by
  subst hempty
  have hc : chatContext [] ids store = fallbackLoop store ids [] := by
    simp [chatContext, hids]
  have he := fallbackLoop_eq store ids [] (by simp)
  simp only [List.length_nil, Nat.sub_zero, List.nil_append] at he
  refine ⟨?_, ?_, ?_⟩
  · rw [hc, he, List.length_map, List.length_take]
    omega
  · rw [hc, he]
    intro p hp
    rcases List.mem_map.mp hp with ⟨e, _, rfl⟩
    rfl
  · rw [hc, he]

/-- A concrete index entry used in the witnesses: a chunk of document 7
owned by company 1. -/
def entry7 : Entry :=
  ⟨"chunk-a".toList, "Term A".toList, MVal.int 7, MVal.int 1, "f.pdf".toList⟩

/-- Witness for `c2_fallback_direct_listing` on a one-entry store and the
request `document_ids = [7]`. -/
theorem c2_fallback_direct_listing_witness :
    (chatContext [] [7] [entry7]).length ≤ 6 ∧
    (∀ p ∈ chatContext [] [7] [entry7], p.score = 1) ∧
    chatContext [] [7] [entry7] =
      ((([7] : List Int).map (getDocumentChunks [entry7])).flatten.take 6).map
        toFallbackPassage :=
  c2_fallback_direct_listing [entry7] [7] [] rfl (by decide)

lemma mergeResults_filter_of_seen (cid : Option Int) (dids : List Int) :
    ∀ (items : List RawItem) (seen : List (List Char)) (acc : List Passage)
      (x : List Char), x ∈ seen →
    (mergeResults cid dids items seen acc).filter (fun p => decide (p.id = x)) =
      acc.filter (fun p => decide (p.id = x)) := by
  intro items
  induction items with
  | nil => intro seen acc x _; rfl
  | cons it rest ih =>
    intro seen acc x hx
    rw [mergeResults]
    by_cases hseen : it.id ∈ seen
    · rw [if_pos hseen]
      exact ih seen acc x hx
    · rw [if_neg hseen]
      have hne : it.id ≠ x := fun h => hseen (h ▸ hx)
      by_cases hpass : passesPostFilter cid dids it.docId it.companyId = true
      · rw [if_pos hpass, ih _ _ x (List.mem_cons_of_mem _ hx), List.filter_append]
        simp [toRankedPassage, hne]
      · rw [if_neg hpass]
        exact ih _ _ x (List.mem_cons_of_mem _ hx)

lemma mergeResults_nodup (cid : Option Int) (dids : List Int) :
    ∀ (items : List RawItem) (seen : List (List Char)) (acc : List Passage),
    (acc.map Passage.id).Nodup → (∀ p ∈ acc, p.id ∈ seen) →
    ((mergeResults cid dids items seen acc).map Passage.id).Nodup := by
  intro items
  induction items with
  | nil => intro seen acc h1 _; exact h1
  | cons it rest ih =>
    intro seen acc h1 h2
    rw [mergeResults]
    by_cases hseen : it.id ∈ seen
    · rw [if_pos hseen]
      exact ih seen acc h1 h2
    · rw [if_neg hseen]
      by_cases hpass : passesPostFilter cid dids it.docId it.companyId = true
      · rw [if_pos hpass]
        apply ih (it.id :: seen) (acc ++ [toRankedPassage it])
        · rw [List.map_append]
          rw [List.nodup_append]
          refine ⟨h1, List.nodup_singleton _, ?_⟩
          intro a ha hb
          simp only [List.map_cons, List.map_nil, List.mem_singleton] at hb
          rcases List.mem_map.mp ha with ⟨p, hp, rfl⟩
          have hpid : p.id = it.id := hb
          exact hseen (hpid ▸ h2 p hp)
        · intro p hp
          rcases List.mem_append.mp hp with hp | hp
          · exact List.mem_cons_of_mem _ (h2 p hp)
          · simp only [List.mem_singleton] at hp
            subst hp
            exact List.mem_cons_self _ _
      · rw [if_neg hpass]
        exact ih _ _ h1 (fun p hp => List.mem_cons_of_mem _ (h2 p hp))

lemma mergeResults_first (cid : Option Int) (dids : List Int) :
    ∀ (items : List RawItem) (seen : List (List Char)) (acc : List Passage)
      (it : RawItem),
    items.find? (fun j => decide (j.id = it.id)) = some it →
    it.id ∉ seen →
    acc.filter (fun p => decide (p.id = it.id)) = [] →
    passesPostFilter cid dids it.docId it.companyId = true →
    (mergeResults cid dids items seen acc).filter (fun p => decide (p.id = it.id)) =
      [toRankedPassage it] := by
  intro items
  induction items with
  | nil =>
    intro seen acc it hfind _ _ _
    simp at hfind
  | cons j rest ih =>
    intro seen acc it hfind hnseen hacc hpass
    rw [mergeResults]
    by_cases hj : j.id = it.id
    · have hjit : j = it := by
        have hd : decide (j.id = it.id) = true := by simp [hj]
        rw [List.find?_cons, hd] at hfind
        exact Option.some.inj hfind
      subst hjit
      rw [if_neg hnseen, if_pos hpass]
      rw [mergeResults_filter_of_seen cid dids rest (j.id :: seen) _ j.id
        (List.mem_cons_self _ _)]
      rw [List.filter_append, hacc]
      simp [toRankedPassage]
    · have hfind' : rest.find? (fun k => decide (k.id = it.id)) = some it := by
        have hd : decide (j.id = it.id) = false := by simp [hj]
        rw [List.find?_cons, hd] at hfind
        exact hfind
      by_cases hseen : j.id ∈ seen
      · rw [if_pos hseen]
        exact ih seen acc it hfind' hnseen hacc hpass
      · rw [if_neg hseen]
        have hnseen' : it.id ∉ j.id :: seen := by
          intro h
          rcases List.mem_cons.mp h with h | h
          · exact hj h.symm
          · exact hnseen h
        by_cases hpassj : passesPostFilter cid dids j.docId j.companyId = true
        · rw [if_pos hpassj]
          apply ih _ _ it hfind' hnseen' _ hpass
          rw [List.filter_append, hacc]
          simp [toRankedPassage, hj]
        · rw [if_neg hpassj]
          exact ih _ _ it hfind' hnseen' hacc hpass

/-- C3: `similarity_search` output never contains two passages with the
same vector-index entry id, and whenever the first raw result row carrying
a given id (in merge order, i.e. int-typed result set before string-typed
one) satisfies the post-query filter — as both typed result rows for a
matching entry do — exactly one passage with that id appears, built from
that first occurrence. -/
theorem c3_similarity_dedup_first_kept (cid : Option Int) (dids : List Int)
    (querySets : List (List RawItem)) :
    ((similaritySearchMerge cid dids querySets).map Passage.id).Nodup ∧
    (∀ it : RawItem,
      querySets.flatten.find? (fun j => decide (j.id = it.id)) = some it →
      passesPostFilter cid dids it.docId it.companyId = true →
      (similaritySearchMerge cid dids querySets).filter
          (fun p => decide (p.id = it.id)) = [toRankedPassage it]) := by
  constructor
  · exact mergeResults_nodup cid dids querySets.flatten [] [] (by simp) (by simp)
  · intro it hfind hpass
    exact mergeResults_first cid dids querySets.flatten [] [] it hfind
      (by simp) rfl hpass

/-- The same underlying match as returned by the int-typed query. -/
def rowInt : RawItem :=
  ⟨"chunk-a".toList, "Term A".toList, MVal.int 7, MVal.int 1, "f.pdf".toList, 0⟩

/-- The same underlying match as returned by the string-typed query. -/
def rowStr : RawItem :=
  ⟨"chunk-a".toList, "Term A".toList, MVal.int 7, MVal.int 1, "f.pdf".toList, 0⟩

/-- Witness for `c3_similarity_dedup_first_kept`: both typed encodings
return the same entry, and exactly one passage for its id is kept. -/
theorem c3_similarity_dedup_first_kept_witness :
    ((similaritySearchMerge (some 1) [7] [[rowInt], [rowStr]]).map Passage.id).Nodup ∧
    (similaritySearchMerge (some 1) [7] [[rowInt], [rowStr]]).filter
        (fun p => decide (p.id = rowInt.id)) = [toRankedPassage rowInt] :=
  ⟨(c3_similarity_dedup_first_kept (some 1) [7] [[rowInt], [rowStr]]).1,
   (c3_similarity_dedup_first_kept (some 1) [7] [[rowInt], [rowStr]]).2 rowInt
     (by rfl) (by decide)⟩

lemma mergeResults_all_pass (cid : Option Int) (dids : List Int) :
    ∀ (items : List RawItem) (seen : List (List Char)) (acc : List Passage),
    (∀ p ∈ acc, passesPostFilter cid dids p.docId p.companyId = true) →
    ∀ p ∈ mergeResults cid dids items seen acc,
      passesPostFilter cid dids p.docId p.companyId = true := by
  intro items
  induction items with
  | nil => intro seen acc hacc p hp; exact hacc p hp
  | cons it rest ih =>
    intro seen acc hacc p hp
    rw [mergeResults] at hp
    by_cases hseen : it.id ∈ seen
    · rw [if_pos hseen] at hp
      exact ih seen acc hacc p hp
    · rw [if_neg hseen] at hp
      by_cases hpass : passesPostFilter cid dids it.docId it.companyId = true
      · rw [if_pos hpass] at hp
        refine ih _ _ ?_ p hp
        intro q hq
        rcases List.mem_append.mp hq with hq | hq
        · exact hacc q hq
        · simp only [List.mem_singleton] at hq
          subst hq
          exact hpass
      · rw [if_neg hpass] at hp
        exact ih _ _ hacc p hp

/-- C4: every passage returned by the `similarity_search` merge satisfies
the intended restriction under stringified comparison — `str` of its
`company_id` metadata equals `str` of the requested company id, and when
a `document_ids` restriction was supplied, `str` of its `document_id`
metadata is in the stringified requested id set.  This holds for arbitrary
collected result sets, so in particular for the unfiltered fallback query
issued when both typed filter encodings raised. -/
theorem c4_post_filter_enforced (cid : Option Int) (dids : List Int)
    (querySets : List (List RawItem)) (p : Passage)
    (hp : p ∈ similaritySearchMerge cid dids querySets) :
    (∀ c : Int, cid = some c → pyStr p.companyId = intStr c) ∧
    (dids ≠ [] → pyStr p.docId ∈ dids.map intStr) := by
  have h := mergeResults_all_pass cid dids querySets.flatten [] []
    (by intro q hq; cases hq) p hp
  simp only [passesPostFilter, Bool.and_eq_true] at h
  constructor
  · intro c hc
    subst hc
    simpa using h.1
  · intro hne
    have h2 := h.2
    rw [if_neg hne] at h2
    simpa using h2

/-- Witness for `c4_post_filter_enforced`: the single passage returned for
a one-row result set satisfies both stringified restrictions. -/
theorem c4_post_filter_enforced_witness :
    pyStr (toRankedPassage rowInt).companyId = intStr 1 ∧
    pyStr (toRankedPassage rowInt).docId ∈ ([7] : List Int).map intStr :=
  ⟨(c4_post_filter_enforced (some 1) [7] [[rowInt]] (toRankedPassage rowInt)
      (by rw [show similaritySearchMerge (some 1) [7] [[rowInt]] =
        [toRankedPassage rowInt] by rfl]; exact List.mem_singleton_self _)).1
      1 rfl,
   (c4_post_filter_enforced (some 1) [7] [[rowInt]] (toRankedPassage rowInt)
      (by rw [show similaritySearchMerge (some 1) [7] [[rowInt]] =
        [toRankedPassage rowInt] by rfl]; exact List.mem_singleton_self _)).2
      (by decide)⟩

/-- C8 (counterexample): `delete_document` filters the index with the
integer-typed `document_id` only and never retries with the stringified
id, so an entry whose `document_id` metadata was written as the string
`"7"` survives `delete_document(7)` even though it belongs to document 7
under the stringified comparison used everywhere else. -/
theorem c8_delete_counterexample :
    deleteDocument [⟨"chunk-s".toList, "body".toList, MVal.str ("7".toList),
        MVal.int 1, "g.pdf".toList⟩] 7 =
      [⟨"chunk-s".toList, "body".toList, MVal.str ("7".toList),
        MVal.int 1, "g.pdf".toList⟩] ∧
    pyStr (MVal.str ("7".toList)) = intStr 7 := by
  constructor
  · rfl
  · decide

/-- C8 (amended): after `delete_document(d)` no entry whose `document_id`
metadata is the native number `d` remains in the index; entries whose
`document_id` metadata was written as a string are not matched by the
delete filter and may remain. -/
theorem c8_delete_int_typed_only (store : List Entry) (d : Int) (e : Entry)
    (he : e ∈ deleteDocument store d) : e.docId ≠ MVal.int d := by
  intro hdoc
  unfold deleteDocument at he
  by_cases hres : chromaGetByDocId store (MVal.int d) = []
  · rw [if_pos hres] at he
    have : e ∈ chromaGetByDocId store (MVal.int d) :=
      List.mem_filter.mpr ⟨he, by simp [hdoc]⟩
    rw [hres] at this
    cases this
  · rw [if_neg hres] at he
    have hmem := List.mem_filter.mp he
    have hin : e ∈ chromaGetByDocId store (MVal.int d) :=
      List.mem_filter.mpr ⟨hmem.1, by simp [hdoc]⟩
    have hid : e.id ∈ (chromaGetByDocId store (MVal.int d)).map (fun x => x.id) :=
      List.mem_map.mpr ⟨e, hin, rfl⟩
    have := hmem.2
    simp only [decide_eq_true_eq] at this
    exact this hid

/-- A chunk of document 8, used in the delete witness. -/
def entry8 : Entry :=
  ⟨"chunk-b".toList, "Other".toList, MVal.int 8, MVal.int 1, "h.pdf".toList⟩

/-- Witness for `c8_delete_int_typed_only`: an entry of a different
document survives the delete and indeed is not int-typed document 7. -/
theorem c8_delete_int_typed_only_witness :
    entry8 ∈ deleteDocument [entry8] 7 ∧ entry8.docId ≠ MVal.int 7 :=
  ⟨by decide, c8_delete_int_typed_only [entry8] 7 entry8 (by decide)⟩

/-- C10 (implicit): the chunk-listing fallback applies no company scoping.
Whenever the semantic search is empty and a document id is requested, an
index entry carrying that (int-typed) document id is selected into the
generation context purely by document id — even when its `company_id`
metadata differs from the requesting company. -/
theorem c10_fallback_ignores_company (reqCompany d : Int) (e : Entry)
    (rest : List Entry)
    (hdoc : e.docId = MVal.int d)
    (hcomp : e.companyId ≠ MVal.int reqCompany) :
    ∃ p ∈ chatContext [] [d] (e :: rest),
      p.id = e.id ∧ p.companyId = e.companyId ∧ p.companyId ≠ MVal.int reqCompany := by
  refine ⟨toFallbackPassage e, ?_, rfl, rfl, hcomp⟩
  have hc : chatContext [] [d] (e :: rest) = fallbackLoop (e :: rest) [d] [] := by
    simp [chatContext]
  rw [hc, fallbackLoop_eq (e :: rest) [d] [] (by simp)]
  have hget : getDocumentChunks (e :: rest) d =
      e :: chromaGetByDocId rest (MVal.int d) := by
    unfold getDocumentChunks chromaGetByDocId
    rw [List.filter_cons_of_pos (by simp [hdoc])]
    simp
  simp only [List.map_cons, List.map_nil, List.flatten_cons, List.flatten_nil,
    List.append_nil, hget, List.nil_append, List.length_nil, Nat.sub_zero]
  rw [show (6 : Nat) = 5 + 1 from rfl, List.take_succ_cons, List.map_cons]
  exact List.mem_cons_self _ _

/-- A chunk of document 7 owned by company 99, not by the requesting
company 1. -/
def entry7foreign : Entry :=
  ⟨"chunk-f".toList, "Foreign".toList, MVal.int 7, MVal.int 99, "k.pdf".toList⟩

/-- Witness for `c10_fallback_ignores_company`: requesting company 1 with
`document_ids = [7]` pulls company 99's chunk into the context. -/
theorem c10_fallback_ignores_company_witness :
    ∃ p ∈ chatContext [] [7] [entry7foreign],
      p.id = entry7foreign.id ∧ p.companyId = entry7foreign.companyId ∧
      p.companyId ≠ MVal.int 1 :=
  c10_fallback_ignores_company 1 7 entry7foreign [] rfl (by decide)

/-!
### Document lifecycle pipeline (`document_processor.py`, `llm_service.py`)

`process_document` drives download → extract → chunk → index → summarize
and commits the resulting status.  The external effects (S3 visibility and
download, text extraction, vector-store indexing, the Gemini call) are
modelled as an environment of outcome-valued capabilities; the control
flow, error wrapping and status/metadata writes are embedded from the
source. -/

/-- The document status column (`Document.processed`). -/
inductive DocStatus where
  | pending
  | processing
  | completed
  | failed
deriving DecidableEq

/-- A document row: status, summary, metadata map (keys to stringified
values), completion timestamp. -/
structure DocRecord where
  status : DocStatus
  summary : Option (List Char)
  docMetadata : List (List Char × List Char)
  processedAt : Option (List Char)
deriving DecidableEq

/-- Python `str(...)` of a natural number. -/
def natStr (n : Nat) : List Char := (toString n).toList

/-- Environment of external capabilities consumed by the pipeline:
`headOk k` says whether the k-th `head_object` call succeeds, `maxWait` is
`S3_UPLOAD_WAIT_SECONDS` (default 120), `getObject` the download outcome,
`extractText` the text-extraction outcome on the downloaded bytes,
`addDocuments` the vector-store indexing outcome on the chunk list,
`llmHasKey` whether an API key was configured, and `llmGen` the outcome of
`model.generate_content` (exception message or extracted text). -/
structure PipeEnv where
  headOk : Nat → Bool
  maxWait : Nat
  getObject : Except (List Char) (List Char)
  extractText : List Char → Except (List Char) (List Char)
  addDocuments : List (List Char) → Except (List Char) (List (List Char))
  llmHasKey : Bool
  llmGen : Except (List Char) (List Char)

/-- The consistency-wait loop of `_download_from_s3`: up to `fuel` HEAD
polls; returns the number of existence checks performed and whether the
object became visible. -/
def pollLoop (headOk : Nat → Bool) : Nat → Nat → Nat × Bool
  | 0, checks => (checks, false)
  | fuel + 1, checks =>
    if headOk checks then (checks + 1, true) else pollLoop headOk fuel (checks + 1)

/-- `DocumentProcessor._download_from_s3`: poll for visibility, then fetch
(the `for ... else` raises when the poll ceiling is exhausted; fetch
errors are wrapped). -/
def downloadFromS3 (env : PipeEnv) : Except (List Char) (List Char) :=
  if (pollLoop env.headOk env.maxWait 0).2 then
    match env.getObject with
    | .ok b => .ok b
    | .error e => .error ("Failed to download from S3: ".toList ++ e)
  else
    .error ("S3 object not found within ".toList ++ natStr env.maxWait ++
      " seconds".toList)

/-- `LLMService._generate_text`: a missing API key or a generation
exception is converted into an error-shaped string; it never raises. -/
def generateTextLLM (env : PipeEnv) : List Char :=
  if env.llmHasKey then
    match env.llmGen with
    | .ok t => t
    | .error e => "Error generating response: ".toList ++ e
  else ("Error generating response: Missing API key".toList)

/-- `LLMService.generate_response` (total, by `_generate_text`). -/
def generateResponse (env : PipeEnv) : Except (List Char) (List Char) :=
  Except.ok (generateTextLLM env)

/-- `DocumentProcessor._generate_summary`: try the LLM call, converting
any exception into the `Summary generation failed` placeholder; since
`generate_response` never raises, the except branch is unreachable. -/
def generateSummary (env : PipeEnv) : Except (List Char) (List Char) :=
  match generateResponse env with
  | .ok s => .ok s
  | .error e => .ok ("Summary generation failed: ".toList ++ e)

/-- The body of `process_document` after the status is set to
`processing`: download, extract, chunk with the configured splitter,
index, summarize.  Returns the summary, the chunk count and the character
count on success, or the terminal error. -/
def runPipeline (env : PipeEnv) : Except (List Char) (List Char × Nat × Nat) :=
  match downloadFromS3 env with
  | .error e => .error e
  | .ok content =>
    match env.extractText content with
    | .error e => .error e
    | .ok textContent =>
      match env.addDocuments (splitText textContent) with
      | .error e => .error e
      | .ok _ =>
        match generateSummary env with
        | .error e => .error e
        | .ok summary => .ok (summary, (splitText textContent).length, textContent.length)

/-- `DocumentProcessor.process_document` on an existing document row:
set `processing`, run the pipeline, then commit either the `completed`
state (summary, `processed_at`, metadata with `total_chunks`,
`total_characters`, `processing_completed_at`) or the `failed` state
(metadata with `error` and `failed_at`). -/
def processDocument (env : PipeEnv) (doc : DocRecord) (now : List Char) : DocRecord :=
  let doc1 : DocRecord := { doc with status := DocStatus.processing }
  match runPipeline env with
  | .ok r =>
    { doc1 with
      status := DocStatus.completed
      processedAt := some now
      summary := some r.1
      docMetadata := [("total_chunks".toList, natStr r.2.1),
                      ("total_characters".toList, natStr r.2.2),
                      ("processing_completed_at".toList, now)] }
  | .error e =>
    { doc1 with
      status := DocStatus.failed
      docMetadata := [("error".toList, e), ("failed_at".toList, now)] }

lemma pollLoop_never (headOk : Nat → Bool) : ∀ (fuel c : Nat),
    (∀ k, k < c + fuel → headOk k = false) →
    pollLoop headOk fuel c = (c + fuel, false) := by
  intro fuel
  induction fuel with
  | zero => intro c _; simp [pollLoop]
  | succ n ih =>
    intro c h
    rw [pollLoop]
    rw [h c (by omega)]
    rw [if_neg (by simp)]
    rw [ih (c + 1) (fun k hk => h k (by omega))]
    rw [Prod.mk.injEq]
    constructor
    · omega
    · rfl

/-- C5: when the uploaded object never becomes visible within the
consistency-wait ceiling (default 120 one-second polls), the poll loop
performs exactly the ceiling number of existence checks and reports
failure, the download step raises a terminal error, and an existing
document processed under that environment ends in status `failed` — not
`processing` — with its metadata map holding exactly an `error` field and
a `failed_at` timestamp. -/
theorem c5_consistency_timeout_fails (env : PipeEnv) (doc : DocRecord)
    (now : List Char)
    (hceil : env.maxWait = 120)
    (hnever : ∀ k, k < env.maxWait → env.headOk k = false) :
    pollLoop env.headOk env.maxWait 0 = (120, false) ∧
    (∃ msg, downloadFromS3 env = Except.error msg) ∧
    (processDocument env doc now).status = DocStatus.failed ∧
    (processDocument env doc now).status ≠ DocStatus.processing ∧
    (processDocument env doc now).docMetadata.map Prod.fst =
      ["error".toList, "failed_at".toList] := by
  have hpoll : pollLoop env.headOk env.maxWait 0 = (120, false) := by
    have h := pollLoop_never env.headOk env.maxWait 0
      (by intro k hk; exact hnever k (by omega))
    rw [h]
    rw [hceil]
  have hdl : downloadFromS3 env =
      Except.error ("S3 object not found within ".toList ++ natStr env.maxWait ++
        " seconds".toList) := by
    unfold downloadFromS3
    rw [hpoll]
    simp
  have hrun : runPipeline env =
      Except.error ("S3 object not found within ".toList ++ natStr env.maxWait ++
        " seconds".toList) := by
    unfold runPipeline
    rw [hdl]
  refine ⟨hpoll, ⟨_, hdl⟩, ?_, ?_, ?_⟩
  · simp [processDocument, hrun]
  · simp [processDocument, hrun]
  · simp [processDocument, hrun]

/-- The environment of an upload whose object never appears. -/
def envTimeout : PipeEnv :=
  ⟨fun _ => false, 120, Except.ok [], fun b => Except.ok b,
   fun _ => Except.ok [], false, Except.ok []⟩

/-- A freshly uploaded pending document row. -/
def docPending : DocRecord := ⟨DocStatus.pending, none, [], none⟩

/-- Witness for `c5_consistency_timeout_fails` on the concrete
never-visible environment. -/
theorem c5_consistency_timeout_fails_witness :
    pollLoop envTimeout.headOk envTimeout.maxWait 0 = (120, false) ∧
    (∃ msg, downloadFromS3 envTimeout = Except.error msg) ∧
    (processDocument envTimeout docPending ("t0".toList)).status = DocStatus.failed ∧
    (processDocument envTimeout docPending ("t0".toList)).status ≠ DocStatus.processing ∧
    (processDocument envTimeout docPending ("t0".toList)).docMetadata.map Prod.fst =
      ["error".toList, "failed_at".toList] :=
  c5_consistency_timeout_fails envTimeout docPending ("t0".toList) rfl
    (fun _ _ => rfl)

/-- C7: summary generation never raises — for every environment it
returns a string, degrading to an error-shaped placeholder on a missing
API key or a generation exception — and whenever download, extraction and
indexing succeed the document completes: status `completed`,
`processed_at` set, metadata holding `total_chunks` and
`total_characters`, and the (possibly placeholder) summary stored.  In
particular a missing API key stores the missing-key placeholder while the
document still completes. -/
theorem c7_summary_never_blocks (env : PipeEnv) (doc : DocRecord)
    (now bytes textContent : List Char) (ids : List (List Char))
    (hdl : downloadFromS3 env = Except.ok bytes)
    (hex : env.extractText bytes = Except.ok textContent)
    (hidx : env.addDocuments (splitText textContent) = Except.ok ids) :
    (∀ env2 : PipeEnv, ∃ s, generateSummary env2 = Except.ok s) ∧
    (processDocument env doc now).status = DocStatus.completed ∧
    (processDocument env doc now).processedAt = some now ∧
    (processDocument env doc now).summary = some (generateTextLLM env) ∧
    (processDocument env doc now).docMetadata.map Prod.fst =
      ["total_chunks".toList, "total_characters".toList,
       "processing_completed_at".toList] ∧
    (env.llmHasKey = false →
      (processDocument env doc now).summary =
        some ("Error generating response: Missing API key".toList)) := by
  have hrun : runPipeline env =
      Except.ok (generateTextLLM env, (splitText textContent).length,
        textContent.length) := by
    unfold runPipeline
    simp only [hdl, hex, hidx]
    rfl
  refine ⟨fun env2 => ⟨generateTextLLM env2, rfl⟩, ?_, ?_, ?_, ?_, ?_⟩
  · simp [processDocument, hrun]
  · simp [processDocument, hrun]
  · simp [processDocument, hrun]
  · simp [processDocument, hrun]
  · intro hkey
    simp [processDocument, hrun, generateTextLLM, hkey]

/-- The environment of a successful ingestion run with no API key
configured. -/
def envNoKey : PipeEnv :=
  ⟨fun _ => true, 120, Except.ok [], fun b => Except.ok b,
   fun _ => Except.ok [], false, Except.ok []⟩

/-- Witness for `c7_summary_never_blocks` on the concrete no-API-key
environment. -/
theorem c7_summary_never_blocks_witness :
    (∀ env2 : PipeEnv, ∃ s, generateSummary env2 = Except.ok s) ∧
    (processDocument envNoKey docPending ("t1".toList)).status = DocStatus.completed ∧
    (processDocument envNoKey docPending ("t1".toList)).processedAt = some ("t1".toList) ∧
    (processDocument envNoKey docPending ("t1".toList)).summary =
      some (generateTextLLM envNoKey) ∧
    (processDocument envNoKey docPending ("t1".toList)).docMetadata.map Prod.fst =
      ["total_chunks".toList, "total_characters".toList,
       "processing_completed_at".toList] ∧
    (envNoKey.llmHasKey = false →
      (processDocument envNoKey docPending ("t1".toList)).summary =
        some ("Error generating response: Missing API key".toList)) :=
  c7_summary_never_blocks envNoKey docPending ("t1".toList) [] [] [] rfl rfl rfl

/-!
### Chat history window and company lookup (`routes/chat.py`,
`routes/upload.py`, `llm_service.py`)

Persisted messages are given in persistence (chronological) order; the
route's query orders them by timestamp descending with `limit(10)` and
then reverses, and `generate_rag_response` keeps only the last five of
the resulting chronological list. -/

/-- A persisted chat message reduced to the fields the history context
uses. -/
structure StoredMessage where
  role : List Char
  content : List Char
deriving DecidableEq

/-- The route's `recent_messages` query: newest-first, at most 10. -/
def recentMessagesDesc (msgs : List StoredMessage) : List StoredMessage :=
  msgs.reverse.take 10

/-- `chat_history` as built in `chat_with_documents`: the recent messages
reversed back to chronological order, each reduced to role and content. -/
def chatHistory (msgs : List StoredMessage) : List (List Char × List Char) :=
  (recentMessagesDesc msgs).reverse.map (fun m => (m.role, m.content))

/-- `chat_history[-5:]` as consumed inside
`LLMService.generate_rag_response`. -/
def historyForGeneration (h : List (List Char × List Char)) :
    List (List Char × List Char) :=
  h.drop (h.length - 5)

/-- C6: the conversation context passed to the generation step is exactly
the last 5 of the 10 most recently persisted messages of the session, in
chronological order, reduced to role and content — hence at most 5
entries — and for a session holding 11 prior messages it is exactly the
most recent 5 of the most recent 10. -/
theorem c6_history_window (msgs : List StoredMessage) :
    historyForGeneration (chatHistory msgs) =
      (msgs.drop (msgs.length - 5)).map (fun m => (m.role, m.content)) ∧
    (historyForGeneration (chatHistory msgs)).length ≤ 5 ∧
    (msgs.length = 11 → historyForGeneration (chatHistory msgs) =
      (msgs.drop 6).map (fun m => (m.role, m.content))) := by
  have hch : chatHistory msgs =
      (msgs.drop (msgs.length - 10)).map (fun m => (m.role, m.content)) := by
    unfold chatHistory recentMessagesDesc
    rw [List.take_reverse, List.reverse_reverse]
  have hmain : historyForGeneration (chatHistory msgs) =
      (msgs.drop (msgs.length - 5)).map (fun m => (m.role, m.content)) := by
    unfold historyForGeneration
    rw [hch, List.length_map, List.length_drop, ← List.map_drop, List.drop_drop]
    have harith : msgs.length - 10 + (msgs.length - (msgs.length - 10) - 5) =
        msgs.length - 5 := by omega
    rw [harith]
  refine ⟨hmain, ?_, ?_⟩
  · rw [hmain, List.length_map, List.length_drop]
    omega
  · intro h11
    rw [hmain, h11]

/-- Witness for `c6_history_window` on a concrete session holding 11
messages. -/
theorem c6_history_window_witness :
    ((List.range 11).map (fun i => (⟨natStr i, natStr i⟩ : StoredMessage))).length = 11 ∧
    historyForGeneration (chatHistory
        ((List.range 11).map (fun i => (⟨natStr i, natStr i⟩ : StoredMessage)))) =
      (((List.range 11).map (fun i => (⟨natStr i, natStr i⟩ : StoredMessage))).drop 6).map
        (fun m => (m.role, m.content)) :=
  ⟨by simp,
   (c6_history_window
     ((List.range 11).map (fun i => (⟨natStr i, natStr i⟩ : StoredMessage)))).2.2
     (by simp)⟩

/-- A company row of the relational store. -/
structure CompanyRec where
  id : Int
  name : List Char
deriving DecidableEq

/-- SQL `lower(...)` as applied by the chat route's query. -/
def sqlLower (l : List Char) : List Char := l.map Char.toLower

/-- The chat endpoint's company lookup (`routes/chat.py`):
`lower(Company.name) == lower(company_name.strip())`, first match. -/
def findCompanyChat (companies : List CompanyRec) (rawName : List Char) :
    Option CompanyRec :=
  companies.find? (fun c => decide (sqlLower c.name = sqlLower (pyStrip rawName)))

/-- The document-listing endpoint's company lookup (`routes/upload.py`,
`get_company_documents`): exact name equality, first match. -/
def findCompanyListing (companies : List CompanyRec) (rawName : List Char) :
    Option CompanyRec :=
  companies.find? (fun c => decide (c.name = rawName))

/-- The stored company used in the lookup counterexample. -/
def acmeCompany : CompanyRec := ⟨1, "Acme".toList⟩

/-- C9 (counterexample): for the stored name `"Acme"` and the input
`"acme"` the chat endpoint resolves the company but the document-listing
endpoint does not — the two exposed endpoints do not share one lookup
normalization. -/
theorem c9_lookup_counterexample :
    findCompanyChat [acmeCompany] ("acme".toList) = some acmeCompany ∧
    findCompanyListing [acmeCompany] ("acme".toList) = none := by
  constructor
  · rfl
  · rfl

/-- C9 (amended): the chat endpoint's lookup matches a company iff the
lowercased stored name equals the lowercased, whitespace-trimmed input,
while the document-listing endpoint's lookup matches iff the stored name
equals the raw input exactly; the two therefore agree only up to that
difference in normalization. -/
theorem c9_company_lookup_normalization (companies : List CompanyRec)
    (rawName : List Char) :
    ((findCompanyChat companies rawName).isSome ↔
      ∃ c ∈ companies, sqlLower c.name = sqlLower (pyStrip rawName)) ∧
    ((findCompanyListing companies rawName).isSome ↔
      ∃ c ∈ companies, c.name = rawName) := by
  constructor
  · simp [findCompanyChat, List.find?_isSome]
  · simp [findCompanyListing, List.find?_isSome]
